import Mathlib

/-!
Shallow embedding of the Bitget webhook-bot repository (server.js and the
enhanced variant): symbol normalization, the all-in position sizer
(`computeAllInAmounts`), the in-memory duplicate guard (`isDuplicate`) and
the `POST /webhook` handler, together with theorems checking the spec's
claims about them.  Strings are modelled as lists of characters; JS
`Number` values flowing through the sizing arithmetic are modelled as
rationals; calls into external collaborators (ccxt exchange client,
`crypto`, `JSON.parse`) are modelled as oracle parameters of the
environment.
-/

namespace Bitget

/-- JS strings, modelled as lists of characters. -/
abbrev Str := List Char

/-- The whitespace characters recognised by the model of `String.prototype.trim`
(the ASCII fragment of the JS whitespace class). -/
def jsIsWs (c : Char) : Bool :=
  c = ' ' || c = '\t' || c = '\n' || c = '\r' || c = '\x0b' || c = '\x0c'

/-- Model of `String.prototype.trim`: drop whitespace from both ends. -/
def jsTrim (s : Str) : Str :=
  ((s.dropWhile jsIsWs).reverse.dropWhile jsIsWs).reverse

/-- Model of `String.prototype.replace(pat, rep)` with a one-character
search pattern: only the first occurrence is replaced. -/
def jsReplaceFirst (pat : Char) (rep : Str) : Str → Str
  | [] => []
  | c :: cs => if c = pat then rep ++ cs else c :: jsReplaceFirst pat rep cs

/-- ASCII lower/upper case pairs, the fragment of `toUpperCase`/`toLowerCase`
exercised by symbol strings. -/
def upPairs : List (Char × Char) :=
  [('a','A'), ('b','B'), ('c','C'), ('d','D'), ('e','E'), ('f','F'), ('g','G'),
   ('h','H'), ('i','I'), ('j','J'), ('k','K'), ('l','L'), ('m','M'), ('n','N'),
   ('o','O'), ('p','P'), ('q','Q'), ('r','R'), ('s','S'), ('t','T'), ('u','U'),
   ('v','V'), ('w','W'), ('x','X'), ('y','Y'), ('z','Z')]

/-- Association-list lookup with decidable equality on the keys. -/
def alookup {α β : Type} [DecidableEq α] (k : α) : List (α × β) → Option β
  | [] => none
  | (a, b) :: rest => if a = k then some b else alookup k rest

/-- Model of `Char` uppercasing under `String.prototype.toUpperCase` (ASCII). -/
def upChar (c : Char) : Char :=
  match alookup c upPairs with
  | some u => u
  | none => c

/-- Model of `Char` lowercasing under `String.prototype.toLowerCase` (ASCII). -/
def downChar (c : Char) : Char :=
  match alookup c (upPairs.map (fun p => (p.2, p.1))) with
  | some l => l
  | none => c

/-- Model of `String.prototype.toUpperCase` (ASCII fragment). -/
def jsToUpper (s : Str) : Str := s.map upChar

/-- Model of `String.prototype.toLowerCase` (ASCII fragment). -/
def jsToLower (s : Str) : Str := s.map downChar

/-- Model of `s.split("/")`: splits at every slash, keeping empty pieces. -/
def splitSlashGo : Str → Str → List Str
  | [], cur => [cur.reverse]
  | c :: cs, cur => if c = '/' then cur.reverse :: splitSlashGo cs [] else splitSlashGo cs (c :: cur)

def splitSlash (s : Str) : List Str := splitSlashGo s []

/-- Model of `text.split(/\s+/).filter(Boolean)`: whitespace-separated
tokens, empty tokens discarded. -/
def splitWsGo : Str → Str → List Str
  | [], cur => if cur = [] then [] else [cur.reverse]
  | c :: cs, cur =>
    if jsIsWs c then
      (if cur = [] then splitWsGo cs [] else cur.reverse :: splitWsGo cs [])
    else splitWsGo cs (c :: cur)

def splitWsTokens (s : Str) : List Str := splitWsGo s []

/-- The transformation body of `normalizeSymbol` (part_000 lines 112-120):
trim, replace the first dash and the first underscore with a slash, insert a
slash after three characters when no slash is present and the string has at
least six characters, then uppercase. -/
def normCore (s : Str) : Str :=
  let t := jsTrim s
  let t1 := jsReplaceFirst '-' ['/'] t
  let t2 := jsReplaceFirst '_' ['/'] t1
  let t3 := if '/' ∉ t2 ∧ 6 ≤ t2.length then t2.take 3 ++ '/' :: t2.drop 3 else t2
  jsToUpper t3

/-- `normalizeSymbol` of the enhanced variant: a falsy (empty) input yields
`null`, modelled as `none`. -/
def normalizeSymbol (s : Str) : Option Str :=
  if s = [] then none else some (normCore s)

/-- `normalizeSymbol` of `server.js` (lines 64-70): a falsy input yields the
configured default symbol instead of `null`. -/
def normalizeSymbolServer (defaultSymbol : Str) (s : Str) : Str :=
  if s = [] then defaultSymbol else normCore s

/-! ## Position sizer (`computeAllInAmounts`, part_000 lines 126-216) -/

/-- Sizing configuration read from the environment variables. -/
structure Config where
  exchangeType : Str
  useLeverageForSwaps : Bool
  leverage : ℚ
  safetyBuffer : ℚ
deriving DecidableEq

def strSwap : Str := "swap".toList
def strBuy : Str := "buy".toList
def strSell : Str := "sell".toList

/-- The cached market-metadata record for one exchange market key:
`base`, `quote`, `type`, and `limits.amount.min` (absent limits modelled
as `none`). -/
structure MarketInfo where
  base : Str
  quote : Str
  mtype : Str
  minAmount : Option ℚ
deriving DecidableEq

/-- One asset's entry in the balance snapshot (`free` / `total`, each
possibly absent). -/
structure AssetBalance where
  free : Option ℚ
  total : Option ℚ
deriving DecidableEq

/-- A ticker as returned by the gateway (`last` / `close` / `bid`). -/
structure Ticker where
  last : Option ℚ
  close : Option ℚ
  bid : Option ℚ
deriving DecidableEq

/-- JS truthiness filter on an optional number: `0` (and absence) is falsy. -/
def truthyQ : Option ℚ → Option ℚ
  | some v => if v = 0 then none else some v
  | none => none

/-- `a || b` on optional numbers under JS truthiness. -/
def jsOrQ (a b : Option ℚ) : Option ℚ :=
  match truthyQ a with
  | some v => some v
  | none => truthyQ b

/-- `(bal[k] && (bal[k].free || bal[k].total)) ? (bal[k].free || bal[k].total) : 0`
(part_000 lines 156-157); an absent key — including the `undefined` quote of a
separator-less symbol — yields `0`. -/
def balVal (bal : List (Str × AssetBalance)) : Option Str → ℚ
  | none => 0
  | some k =>
    match alookup k bal with
    | none => 0
    | some a => (jsOrQ a.free a.total).getD 0

/-- `ticker && (ticker.last || ticker.close || ticker.bid) ? … : null`
(part_000 line 164). -/
def priceOf : Option Ticker → Option ℚ
  | none => none
  | some tk =>
    match jsOrQ tk.last tk.close with
    | some v => some v
    | none => truthyQ tk.bid

/-- The environment a sizing computation reads: the loaded market table, the
balance snapshot, the ticker fetch and the optional `amountToPrecision`
capability of the ccxt client (which may throw, hence `Except`). -/
structure SizingEnv where
  markets : List (Str × MarketInfo)
  balance : List (Str × AssetBalance)
  ticker : Str → Option Ticker
  amountToPrecision : Option (Str → ℚ → Except Unit ℚ)

/-- The candidate spellings tried during market resolution
(part_000 lines 132-137). -/
def triesOf (symbol : Str) : List Str :=
  [symbol,
   jsReplaceFirst '/' [] symbol,
   jsReplaceFirst '/' ['-'] symbol,
   jsReplaceFirst '-' [] (jsReplaceFirst '/' [] symbol)]

/-- The predicate of the `Object.keys(...).find(...)` reconciliation scan
(part_000 line 138). -/
def resolvePred (symbol : Str) (k : Str) : Bool :=
  decide (k ∈ triesOf symbol) || decide (jsReplaceFirst '/' [] k ∈ triesOf symbol)

/-- Market resolution (part_000 lines 131-140): keep the symbol if it is a
market key, otherwise adopt the first key matching one of the tried
spellings, otherwise keep the symbol unchanged. -/
def resolveSymbol (env : SizingEnv) (symbol : Str) : Str :=
  if (alookup symbol env.markets).isSome then symbol
  else
    match (env.markets.map Prod.fst).find? (resolvePred symbol) with
    | some found => found
    | none => symbol

/-- Raw buy quantity (part_000 lines 168-173): all-in on the free quote
balance, scaled by the leverage factor for leveraged swaps. -/
def rawBuyAmountCalc (cfg : Config) (freeQuote price : ℚ) : ℚ :=
  if cfg.exchangeType = strSwap ∧ cfg.useLeverageForSwaps = true then
    freeQuote * cfg.safetyBuffer * cfg.leverage / price
  else
    freeQuote * cfg.safetyBuffer / price

/-- Best-effort precision rounding (part_000 lines 177-195).  The
`try`-block rounds the buy amount first and then the sell amount; a throw
leaves every assignment made so far in place, so a failure on the sell call
keeps the already-rounded buy amount.  In the fallback branch the symbol is
re-keyed only after both roundings succeeded. -/
def roundAmounts (env : SizingEnv) (symbol : Str) (rawBuy rawSell : ℚ) :
    Str × ℚ × ℚ :=
  match env.amountToPrecision with
  | none => (symbol, rawBuy, rawSell)
  | some f =>
    if (alookup symbol env.markets).isSome then
      match f symbol rawBuy with
      | .error _ => (symbol, rawBuy, rawSell)
      | .ok b =>
        match f symbol rawSell with
        | .error _ => (symbol, b, rawSell)
        | .ok s => (symbol, b, s)
    else
      match (env.markets.map Prod.fst).find?
          (fun k => jsReplaceFirst '/' [] k = jsReplaceFirst '/' [] symbol) with
      | none => (symbol, rawBuy, rawSell)
      | some found =>
        match f found rawBuy with
        | .error _ => (symbol, rawBuy, rawSell)
        | .ok b =>
          match f found rawSell with
          | .error _ => (symbol, b, rawSell)
          | .ok s => (found, b, s)

/-- Minimum-size enforcement (part_000 lines 197-202): a positive quantity
strictly below the declared minimum is zeroed.  A declared minimum of `0` is
falsy in JS and disables the check. -/
def applyMin (market : Option MarketInfo) (buy sell : ℚ) : ℚ × ℚ :=
  match market with
  | none => (buy, sell)
  | some m =>
    match m.minAmount with
    | none => (buy, sell)
    | some minAmt =>
      if minAmt = 0 then (buy, sell)
      else
        ((if 0 < buy ∧ buy < minAmt then 0 else buy),
         (if 0 < sell ∧ sell < minAmt then 0 else sell))

/-- `base`/`quote` derivation (part_000 lines 144-152): from metadata when
present, else by splitting the literal symbol on the slash (a missing second
part is JS `undefined`, modelled as `none`). -/
def baseQuoteOf (market : Option MarketInfo) (symbol : Str) : Str × Option Str :=
  match market with
  | some m => (m.base, some m.quote)
  | none => ((splitSlash symbol).headD [], (splitSlash symbol)[1]?)

/-- The record returned by `computeAllInAmounts` (part_000 lines 204-215). -/
structure SizingResult where
  symbol : Str
  base : Str
  quote : Option Str
  price : ℚ
  buyAmount : ℚ
  sellAmount : ℚ
  freeQuote : ℚ
  freeBase : ℚ
  rawBuyAmount : ℚ
  rawSellAmount : ℚ
deriving DecidableEq

instance {ε α : Type} [DecidableEq ε] [DecidableEq α] : DecidableEq (Except ε α) := fun a b =>
  match a, b with
  | .ok x, .ok y => if h : x = y then .isTrue (by rw [h]) else .isFalse (by simp [h])
  | .error x, .error y => if h : x = y then .isTrue (by rw [h]) else .isFalse (by simp [h])
  | .ok _, .error _ => .isFalse (by simp)
  | .error _, .ok _ => .isFalse (by simp)

/-- `computeAllInAmounts` (part_000 lines 126-216).  The only `throw` in the
function is the missing-price error (line 165), modelled as `Except.error`. -/
def computeAllInAmounts (cfg : Config) (env : SizingEnv) (marketSymbol : Str) :
    Except Unit SizingResult :=
  let symbol := resolveSymbol env marketSymbol
  let market := alookup symbol env.markets
  let bq := baseQuoteOf market symbol
  let freeQuote := balVal env.balance bq.2
  let freeBase := balVal env.balance (some bq.1)
  match priceOf (env.ticker symbol) with
  | none => .error ()
  | some price =>
    let rawBuy := rawBuyAmountCalc cfg freeQuote price
    let rawSell := freeBase * cfg.safetyBuffer
    let rounded := roundAmounts env symbol rawBuy rawSell
    let final := applyMin market rounded.2.1 rounded.2.2
    .ok { symbol := rounded.1
          base := bq.1
          quote := bq.2
          price := price
          buyAmount := final.1
          sellAmount := final.2
          freeQuote := freeQuote
          freeBase := freeBase
          rawBuyAmount := rawBuy
          rawSellAmount := rawSell }

/-! ## Duplicate guard (part_000 lines 96-109) -/

/-- `DUP_TTL_MS = 30 * 1000`. -/
def DUP_TTL_MS : ℕ := 30 * 1000

/-- The lazy-expiry purge loop (part_000 lines 103-105): delete every entry
whose timestamp is older than the TTL. -/
def pruneOld (now : ℕ) (m : List (Str × ℕ)) : List (Str × ℕ) :=
  m.filter (fun e => !decide (e.2 + DUP_TTL_MS < now))

/-- `isDuplicate` (part_000 lines 100-109): purge, then report a present key
as a duplicate without touching it, otherwise record the key with the
current timestamp (`Map.set` appends a new key). -/
def isDuplicate (now : ℕ) (key : Str) (m : List (Str × ℕ)) :
    Bool × List (Str × ℕ) :=
  let m' := pruneOld now m
  if (alookup key m').isSome then (true, m')
  else (false, m' ++ [(key, now)])

/-! ## `POST /webhook` handler (part_000 lines 272-393) -/

/-- The response variants the webhook handler can produce. -/
inductive Resp where
  | okDuplicate
  | okOrder (action : Str)
  | badRequest (msg : Str)
  | unauthorized (msg : Str)
  | serverError (msg : Str)
deriving DecidableEq

def msgMissingSig : Str := "missing_signature".toList
def msgInvalidSig : Str := "invalid_signature".toList
def msgEmptyPayload : Str := "Empty payload".toList
def msgUnknownAction : Str := "Unknown action".toList
def msgActionMust : Str := "Action must be buy or sell".toList
def msgMissingSymbol : Str := "Missing symbol".toList
def msgNoKeys : Str := "API keys not set in environment".toList
def msgTypeMismatch : Str := "market_type_mismatch".toList
def msgBuyTooSmall : Str := "Computed buy size too small".toList
def msgSellTooSmall : Str := "Computed sell size too small".toList
def msgOrderFailed : Str := "order_failed".toList
def msgHandlerError : Str := "handler_error".toList

/-- Webhook-relevant configuration (environment variables of part_000). -/
structure WebhookConfig where
  webhookSecret : Str
  apiKey : Str
  apiSecret : Str
  defaultSymbol : Str
  minOrderAmount : ℚ
  cfg : Config

/-- The `{action, symbol}` payload extracted from a request body; absent or
`null` fields are `none` (JS `undefined`/`null`). -/
structure Payload where
  action : Option Str
  symbol : Option Str

/-- One inbound request: whether the body arrived as a parsed JSON object,
that parsed payload, the raw body text, and the value of the signature
header (absent headers modelled as `none`). -/
structure Request where
  isJsonObject : Bool
  jsonPayload : Payload
  rawText : Str
  sigHeader : Option Str

/-- External collaborators of the handler: the sizing environment, the
`JSON.parse` attempt on a text body, HMAC-SHA256 and SHA-256 digests, and
the exchange's market-order placement. -/
structure WebhookEnv where
  sizing : SizingEnv
  parseJson : Str → Option Payload
  hmac : Str → Str → Str
  sha256 : Str → Str
  createOrder : Str → Str → ℚ → Except Unit Unit

/-- Model of Node's `crypto.timingSafeEqual` on the two buffers: it throws
(`error`) when the buffer lengths differ and otherwise reports byte
equality. -/
def timingSafeEqual (a b : Str) : Except Unit Bool :=
  if a.length = b.length then .ok (a = b) else .error ()

/-- JS truthiness of an optional string: `null`, `undefined` and `""` are
falsy. -/
def truthyStr : Option Str → Bool
  | some s => !s.isEmpty
  | none => false

/-- The HMAC-verification prologue (part_000 lines 277-288); `none` means
the request passed through.  A thrown length-mismatch in `timingSafeEqual`
is caught by the handler's outer `catch` and surfaces as a 500. -/
def hmacStage (wc : WebhookConfig) (env : WebhookEnv) (req : Request) :
    Option Resp :=
  if wc.webhookSecret = [] then none
  else
    let sig := req.sigHeader.getD []
    let computed := env.hmac wc.webhookSecret req.rawText
    if sig = [] then some (.unauthorized msgMissingSig)
    else
      match timingSafeEqual sig computed with
      | .error _ => some (.serverError msgHandlerError)
      | .ok true => none
      | .ok false => some (.unauthorized msgInvalidSig)

/-- Payload extraction (part_000 lines 297-313): a parsed JSON object is
used as-is; otherwise the trimmed text is parsed as JSON, falling back to
the freeform `"buy SYMBOL"` grammar. -/
def parsePayload (wc : WebhookConfig) (env : WebhookEnv) (req : Request) :
    Except Resp Payload :=
  if req.isJsonObject then .ok req.jsonPayload
  else
    let text := jsTrim req.rawText
    match env.parseJson text with
    | some p => .ok p
    | none =>
      match splitWsTokens text with
      | [] => .error (.badRequest msgEmptyPayload)
      | p0 :: rest =>
        let action := jsToLower p0
        if action ≠ strBuy ∧ action ≠ strSell then
          .error (.badRequest msgUnknownAction)
        else
          let symbol : Option Str :=
            match rest.head? with
            | some t => if t = [] then some wc.defaultSymbol else normalizeSymbol t
            | none => some wc.defaultSymbol
          .ok { action := some action, symbol := symbol }

/-- Places the market order (part_000 lines 358-368 / 377-387): a gateway
failure is caught and reported as a 500 `order_failed`. -/
def dispatchOrder (env : WebhookEnv) (sym side : Str) (qty : ℚ) : Resp :=
  match env.createOrder sym side qty with
  | .ok _ => .okOrder side
  | .error _ => .serverError msgOrderFailed

/-- Everything the handler does after the duplicate check (part_000 lines
297-388), returning the response and the list of order placements attempted
(symbol, side, quantity). -/
def afterDup (wc : WebhookConfig) (env : WebhookEnv) (req : Request) :
    Resp × List (Str × Str × ℚ) :=
  match parsePayload wc env req with
  | .error r => (r, [])
  | .ok payload =>
    let action := jsToLower (payload.action.getD [])
    let symbolOpt : Option Str :=
      if truthyStr payload.symbol then normalizeSymbol (payload.symbol.getD [])
      else some wc.defaultSymbol
    if action = [] ∨ (action ≠ strBuy ∧ action ≠ strSell) then
      (.badRequest msgActionMust, [])
    else if ¬ truthyStr symbolOpt then (.badRequest msgMissingSymbol, [])
    else
      match computeAllInAmounts wc.cfg env.sizing (symbolOpt.getD []) with
      | .error _ => (.serverError msgHandlerError, [])
      | .ok amounts =>
        if wc.apiKey = [] ∨ wc.apiSecret = [] then (.serverError msgNoKeys, [])
        else
          let market := alookup amounts.symbol env.sizing.markets
          if wc.cfg.exchangeType = strSwap ∧
              (match market with | some m => m.mtype ≠ strSwap | none => false : Bool) then
            (.badRequest msgTypeMismatch, [])
          else if action = strBuy then
            if amounts.buyAmount ≤ wc.minOrderAmount then
              (.badRequest msgBuyTooSmall, [])
            else
              (dispatchOrder env amounts.symbol strBuy amounts.buyAmount,
               [(amounts.symbol, strBuy, amounts.buyAmount)])
          else
            if amounts.sellAmount ≤ wc.minOrderAmount then
              (.badRequest msgSellTooSmall, [])
            else
              (dispatchOrder env amounts.symbol strSell amounts.sellAmount,
               [(amounts.symbol, strSell, amounts.sellAmount)])

/-- The full `POST /webhook` handler (part_000 lines 272-393): HMAC
verification, then the duplicate check on the SHA-256 of the raw body, then
parsing, validation, sizing and dispatch.  Returns the response, the
duplicate-guard map after the call, and the orders attempted. -/
def handleWebhook (wc : WebhookConfig) (env : WebhookEnv) (req : Request)
    (now : ℕ) (dup : List (Str × ℕ)) :
    Resp × List (Str × ℕ) × List (Str × Str × ℚ) :=
  match hmacStage wc env req with
  | some r => (r, dup, [])
  | none =>
    let key := env.sha256 req.rawText
    let d := isDuplicate now key dup
    if d.1 then (.okDuplicate, d.2, [])
    else
      let out := afterDup wc env req
      (out.1, d.2, out.2)

/-! ## Concrete fixtures used by witnesses and counterexamples -/

/-- A spot configuration with the default safety buffer of 1.0. -/
def cfgBufferFull : Config :=
  { exchangeType := "spot".toList, useLeverageForSwaps := false, leverage := 1, safetyBuffer := 1 }

/-- The same configuration with a safety buffer of 0.5. -/
def cfgBufferHalf : Config :=
  { exchangeType := "spot".toList, useLeverageForSwaps := false, leverage := 1, safetyBuffer := 1/2 }

def symBTC : Str := "BTC/USDT".toList

/-- A one-market environment: 1000 USDT free, 2 BTC free, last price 50000,
no precision capability. -/
def envSimple : SizingEnv :=
  { markets := [(symBTC,
      { base := "BTC".toList, quote := "USDT".toList, mtype := "spot".toList, minAmount := none })]
    balance := [("USDT".toList, { free := some 1000, total := none }),
                ("BTC".toList, { free := some 2, total := none })]
    ticker := fun _ => some { last := some 50000, close := none, bid := none }
    amountToPrecision := none }

/-- The sizing result on `envSimple`. -/
def resSimple : SizingResult :=
  { symbol := symBTC, base := "BTC".toList, quote := some "USDT".toList,
    price := 50000, buyAmount := 1/50, sellAmount := 2, freeQuote := 1000,
    freeBase := 2, rawBuyAmount := 1/50, rawSellAmount := 2 }

theorem computeAllInAmounts_envSimple :
    computeAllInAmounts cfgBufferFull envSimple symBTC = Except.ok resSimple := by
  simp only [computeAllInAmounts, resolveSymbol, alookup, baseQuoteOf, balVal, jsOrQ, truthyQ,
    priceOf, rawBuyAmountCalc, roundAmounts, applyMin, envSimple, cfgBufferFull, strSwap,
    resSimple, symBTC]
  norm_num

/-! ## Claims -/

/-- **C1.**  For every sizing computation with fetched free quote balance
`freeQuote` and fetched price `price > 0`, the raw buy quantity equals
`freeQuote × safetyBuffer / price`, additionally multiplied by the
configured leverage factor exactly when the market type is `swap` and
leverage is enabled; with freeQuote=1000, price=50000 and safetyBuffer=1.0
the raw buy quantity is 0.02, and with safetyBuffer=0.5 it is 0.01. -/
theorem rawBuy_formula :
    (∀ (cfg : Config) (env : SizingEnv) (s : Str) (r : SizingResult),
      computeAllInAmounts cfg env s = Except.ok r → 0 < r.price →
      r.rawBuyAmount = r.freeQuote * cfg.safetyBuffer / r.price *
        (if cfg.exchangeType = strSwap ∧ cfg.useLeverageForSwaps = true
         then cfg.leverage else 1))
    ∧ rawBuyAmountCalc cfgBufferFull 1000 50000 = 1/50
    ∧ rawBuyAmountCalc cfgBufferHalf 1000 50000 = 1/100 := by
  refine ⟨?_, ?_, ?_⟩
  · intro cfg env s r h _
    simp only [computeAllInAmounts] at h
    split at h
    · exact absurd h (by simp)
    · rw [Except.ok.injEq] at h
      subst h
      dsimp only
      rw [rawBuyAmountCalc]
      split_ifs <;> ring
  · simp only [rawBuyAmountCalc, cfgBufferFull, strSwap]
    norm_num
  · simp only [rawBuyAmountCalc, cfgBufferHalf, strSwap]
    norm_num

/-- Witness for C1: the general formula applied to the concrete
`envSimple` run. -/
theorem rawBuy_formula_witness :
    computeAllInAmounts cfgBufferFull envSimple symBTC = Except.ok resSimple
    ∧ (0:ℚ) < resSimple.price
    ∧ resSimple.rawBuyAmount =
        resSimple.freeQuote * cfgBufferFull.safetyBuffer / resSimple.price *
          (if cfgBufferFull.exchangeType = strSwap ∧ cfgBufferFull.useLeverageForSwaps = true
           then cfgBufferFull.leverage else 1) :=
  ⟨computeAllInAmounts_envSimple, by norm_num [resSimple],
   rawBuy_formula.1 cfgBufferFull envSimple symBTC resSimple
     computeAllInAmounts_envSimple (by norm_num [resSimple])⟩

/-- Market metadata declaring a minimum order amount of 0.001. -/
def miMin : MarketInfo :=
  { base := "BTC".toList, quote := "USDT".toList, mtype := "spot".toList,
    minAmount := some (1/1000) }

/-- An environment whose precision capability rounds every quantity to
0.0005, below the declared minimum of 0.001. -/
def envMin : SizingEnv :=
  { markets := [(symBTC, miMin)]
    balance := [("USDT".toList, { free := some 25, total := none }),
                ("BTC".toList, { free := some 25, total := none })]
    ticker := fun _ => some { last := some 50000, close := none, bid := none }
    amountToPrecision := some (fun _ _ => .ok (1/2000)) }

/-- The sizing result on `envMin`: both rounded quantities fall below the
minimum and are zeroed, yet the computation succeeds. -/
def resMin : SizingResult :=
  { symbol := symBTC, base := "BTC".toList, quote := some "USDT".toList,
    price := 50000, buyAmount := 0, sellAmount := 0, freeQuote := 25,
    freeBase := 25, rawBuyAmount := 1/2000, rawSellAmount := 25 }

/-- **C2.**  If the resolved market metadata declares a minimum order amount
`m` and a rounded quantity (buy or sell) is positive but strictly below `m`,
the sizer sets that quantity to 0 and still returns a `SizingResult`; with
minimum 0.001 and rounded quantity 0.0005 it returns 0, not an error. -/
theorem minSize_zeroes :
    (∀ (mi : MarketInfo) (buy sell m : ℚ), mi.minAmount = some m → m ≠ 0 →
       ((0 < buy → buy < m → (applyMin (some mi) buy sell).1 = 0) ∧
        (0 < sell → sell < m → (applyMin (some mi) buy sell).2 = 0)))
    ∧ computeAllInAmounts cfgBufferFull envMin symBTC = Except.ok resMin
    ∧ resMin.buyAmount = 0 ∧ resMin.sellAmount = 0 := by
  refine ⟨?_, ?_, rfl, rfl⟩
  · intro mi buy sell m hmi hm0
    simp only [applyMin, hmi, if_neg hm0]
    exact ⟨fun hb hlt => by simp [hb, hlt], fun hs hlt => by simp [hs, hlt]⟩
  · simp only [computeAllInAmounts, resolveSymbol, alookup, baseQuoteOf, balVal, jsOrQ, truthyQ,
      priceOf, rawBuyAmountCalc, roundAmounts, applyMin, envMin, cfgBufferFull, strSwap,
      resMin, symBTC, miMin]
    norm_num

/-- Witness for C2: the minimum-enforcement branch applied at the concrete
metadata `miMin` with rounded quantities 0.0005. -/
theorem minSize_zeroes_witness :
    miMin.minAmount = some (1/1000) ∧ (1/1000 : ℚ) ≠ 0
    ∧ (0:ℚ) < 1/2000 ∧ (1/2000 : ℚ) < 1/1000
    ∧ (applyMin (some miMin) (1/2000) (1/2000)).1 = 0 :=
  ⟨rfl, by norm_num, by norm_num, by norm_num,
   (minSize_zeroes.1 miMin (1/2000) (1/2000) (1/1000) rfl (by norm_num)).1
     (by norm_num) (by norm_num)⟩

/-- **C5.**  `normalize("btcusdt")` is `"BTC/USDT"`, `normalize("eth-usdt")`
is `"ETH/USDT"`, and the empty string does not normalize to a symbol (it is
rejected as missing, modelled as `none`). -/
theorem normalize_examples :
    normalizeSymbol "btcusdt".toList = some "BTC/USDT".toList
    ∧ normalizeSymbol "eth-usdt".toList = some "ETH/USDT".toList
    ∧ normalizeSymbol "".toList = none := by decide

/-! ## Duplicate-guard lemmas and C6 -/

theorem alookup_append {α β : Type} [DecidableEq α] (k : α) (l1 l2 : List (α × β)) :
    alookup k (l1 ++ l2) = (alookup k l1).orElse (fun _ => alookup k l2) := by
  induction l1 with
  | nil => simp [alookup]
  | cons e rest ih =>
    obtain ⟨a, b⟩ := e
    by_cases h : a = k <;> simp [alookup, h, ih]

theorem alookup_filter_none {α β : Type} [DecidableEq α] (k : α) (p : α × β → Bool)
    (l : List (α × β)) (h : alookup k l = none) : alookup k (l.filter p) = none := by
  induction l with
  | nil => simp [alookup]
  | cons e rest ih =>
    obtain ⟨a, b⟩ := e
    by_cases hk : a = k
    · subst hk
      simp [alookup] at h
    · simp only [alookup, if_neg hk] at h
      by_cases hp : p (a, b) <;> simp [List.filter_cons, hp, alookup, hk, ih h]

theorem isDuplicate_fst (now : ℕ) (key : Str) (m : List (Str × ℕ)) :
    (isDuplicate now key m).1 = (alookup key (pruneOld now m)).isSome := by
  simp only [isDuplicate]
  split <;> simp_all

theorem isDuplicate_snd_of_false (now : ℕ) (key : Str) (m : List (Str × ℕ))
    (h : (isDuplicate now key m).1 = false) :
    (isDuplicate now key m).2 = pruneOld now m ++ [(key, now)] := by
  rw [isDuplicate_fst] at h
  simp only [isDuplicate]
  split <;> simp_all

theorem isDuplicate_true_within (m : List (Str × ℕ)) (key : Str) (t1 t2 : ℕ)
    (hfalse : (isDuplicate t1 key m).1 = false) (hle : t2 ≤ t1 + DUP_TTL_MS) :
    (isDuplicate t2 key (isDuplicate t1 key m).2).1 = true := by
  rw [isDuplicate_snd_of_false t1 key m hfalse]
  rw [isDuplicate_fst]
  have hkeep : pruneOld t2 (pruneOld t1 m ++ [(key, t1)]) =
      pruneOld t2 (pruneOld t1 m) ++ [(key, t1)] := by
    simp only [pruneOld, List.filter_append]
    have : ¬ (t1 + DUP_TTL_MS < t2) := Nat.not_lt.mpr hle
    simp [this]
  rw [hkeep, alookup_append]
  cases halo : alookup key (pruneOld t2 (pruneOld t1 m)) <;> simp [halo, alookup]

theorem isDuplicate_false_after (m : List (Str × ℕ)) (key : Str) (t1 t2 : ℕ)
    (hfalse : (isDuplicate t1 key m).1 = false) (hgt : t1 + DUP_TTL_MS < t2) :
    (isDuplicate t2 key (isDuplicate t1 key m).2).1 = false := by
  rw [isDuplicate_snd_of_false t1 key m hfalse]
  rw [isDuplicate_fst]
  rw [isDuplicate_fst] at hfalse
  have hnone : alookup key (pruneOld t1 m) = none := by
    cases halo : alookup key (pruneOld t1 m) <;> simp_all
  have hdropped : pruneOld t2 (pruneOld t1 m ++ [(key, t1)]) =
      pruneOld t2 (pruneOld t1 m) := by
    simp only [pruneOld, List.filter_append]
    simp [hgt]
  rw [hdropped]
  have hres : alookup key (pruneOld t2 (pruneOld t1 m)) = none := by
    simp only [pruneOld] at hnone ⊢
    exact alookup_filter_none key _ _ hnone
  simp [hres]

/-- **C6.**  `isDuplicate` first prunes every entry older than the 30-second
TTL, returns `true` without modifying the map when the key is present, and
otherwise records the key at the current timestamp and returns `false`;
consequently the same key re-submitted within the TTL reports a duplicate on
the second call, and re-submitted after the TTL expires it is treated as
new. -/
theorem dup_guard :
    ∀ (m : List (Str × ℕ)) (key : Str) (t1 t2 : ℕ),
      ((alookup key (pruneOld t1 m)).isSome = true →
         isDuplicate t1 key m = (true, pruneOld t1 m))
      ∧ ((alookup key (pruneOld t1 m)).isSome = false →
         isDuplicate t1 key m = (false, pruneOld t1 m ++ [(key, t1)]))
      ∧ ((isDuplicate t1 key m).1 = false → t2 ≤ t1 + DUP_TTL_MS →
         (isDuplicate t2 key (isDuplicate t1 key m).2).1 = true)
      ∧ ((isDuplicate t1 key m).1 = false → t1 + DUP_TTL_MS < t2 →
         (isDuplicate t2 key (isDuplicate t1 key m).2).1 = false) := by
  intro m key t1 t2
  exact ⟨fun h => by simp [isDuplicate, h], fun h => by simp [isDuplicate, h],
    isDuplicate_true_within m key t1 t2, isDuplicate_false_after m key t1 t2⟩

/-- Witness for C6: a fresh key at time 0 is recorded, and at time 10000
(within the 30000 ms TTL) the same key reports a duplicate. -/
theorem dup_guard_witness :
    (isDuplicate 0 ['k'] []).1 = false ∧ (10000 : ℕ) ≤ 0 + DUP_TTL_MS
    ∧ (isDuplicate 10000 ['k'] (isDuplicate 0 ['k'] []).2).1 = true :=
  ⟨by decide, by decide, (dup_guard [] ['k'] 0 10000).2.2.1 (by decide) (by decide)⟩

/-! ## HMAC verification (C7) -/

/-- A webhook configuration with a shared secret set. -/
def wcHmac : WebhookConfig :=
  { webhookSecret := "s3cr3t".toList, apiKey := "k".toList, apiSecret := "k".toList,
    defaultSymbol := symBTC, minOrderAmount := 1/100000000, cfg := cfgBufferFull }

/-- A concrete 64-character digest standing in for the HMAC-SHA256 hex
output. -/
def digestEx : Str := List.replicate 64 'a'

/-- A webhook environment whose HMAC oracle always produces `digestEx`. -/
def envHmac : WebhookEnv :=
  { sizing := envSimple
    parseJson := fun _ => none
    hmac := fun _ _ => digestEx
    sha256 := fun s => s
    createOrder := fun _ _ _ => .ok () }

/-- A request carrying a 3-character signature: not equal to the expected
digest, and of different length. -/
def reqShortSig : Request :=
  { isJsonObject := false, jsonPayload := { action := none, symbol := none },
    rawText := "buy BTCUSDT".toList, sigHeader := some "xyz".toList }

/-- A request carrying a wrong signature of the digest's length. -/
def reqWrongSig : Request :=
  { isJsonObject := false, jsonPayload := { action := none, symbol := none },
    rawText := "buy BTCUSDT".toList, sigHeader := some (List.replicate 64 'b') }

/-- Counterexample to C7: a provided signature that does not equal the
expected digest but has a different length makes `crypto.timingSafeEqual`
throw, so the handler answers 500 (`handler_error`), not 401. -/
theorem hmac_counterexample :
    "xyz".toList ≠ envHmac.hmac wcHmac.webhookSecret reqShortSig.rawText
    ∧ (handleWebhook wcHmac envHmac reqShortSig 0 []).1 = Resp.serverError msgHandlerError := by
  constructor
  · decide
  · decide

/-- **C7 (amended).**  With a shared secret configured the handler returns
401 `missing_signature` when the signature header is absent or empty, 401
`invalid_signature` when the provided signature has the same length as the
expected HMAC digest but differs from it, and 500 when the provided
signature's length differs from the digest's (the constant-time comparison
throws); in each case the duplicate map is untouched and no order is
attempted. -/
theorem hmac_verification :
    ∀ (wc : WebhookConfig) (env : WebhookEnv) (req : Request) (now : ℕ)
      (dup : List (Str × ℕ)), wc.webhookSecret ≠ [] →
      (req.sigHeader.getD [] = [] →
        handleWebhook wc env req now dup = (.unauthorized msgMissingSig, dup, []))
      ∧ (∀ sig, req.sigHeader.getD [] = sig → sig ≠ [] →
          sig.length = (env.hmac wc.webhookSecret req.rawText).length →
          sig ≠ env.hmac wc.webhookSecret req.rawText →
          handleWebhook wc env req now dup = (.unauthorized msgInvalidSig, dup, []))
      ∧ (∀ sig, req.sigHeader.getD [] = sig → sig ≠ [] →
          sig.length ≠ (env.hmac wc.webhookSecret req.rawText).length →
          handleWebhook wc env req now dup = (.serverError msgHandlerError, dup, [])) := by
  intro wc env req now dup hsecret
  refine ⟨?_, ?_, ?_⟩
  · intro hsig
    have hstage : hmacStage wc env req = some (.unauthorized msgMissingSig) := by
      simp only [hmacStage, if_neg hsecret, hsig, if_pos]
    simp [handleWebhook, hstage]
  · intro sig hsig hne hlen hneq
    have hstage : hmacStage wc env req = some (.unauthorized msgInvalidSig) := by
      simp only [hmacStage, if_neg hsecret, hsig, if_neg hne, timingSafeEqual,
        if_pos hlen, decide_eq_false hneq]
    simp [handleWebhook, hstage]
  · intro sig hsig hne hlen
    have hstage : hmacStage wc env req = some (.serverError msgHandlerError) := by
      simp only [hmacStage, if_neg hsecret, hsig, if_neg hne, timingSafeEqual,
        if_neg hlen]
    simp [handleWebhook, hstage]

/-- Witness for C7: a same-length wrong signature receives 401
`invalid_signature`. -/
theorem hmac_verification_witness :
    wcHmac.webhookSecret ≠ [] ∧ reqWrongSig.sigHeader.getD [] ≠ []
    ∧ (reqWrongSig.sigHeader.getD []).length =
        (envHmac.hmac wcHmac.webhookSecret reqWrongSig.rawText).length
    ∧ reqWrongSig.sigHeader.getD [] ≠ envHmac.hmac wcHmac.webhookSecret reqWrongSig.rawText
    ∧ handleWebhook wcHmac envHmac reqWrongSig 0 [] = (.unauthorized msgInvalidSig, [], []) :=
  ⟨by decide, by decide, by decide, by decide,
   (hmac_verification wcHmac envHmac reqWrongSig 0 [] (by decide)).2.1
     (reqWrongSig.sigHeader.getD []) rfl (by decide) (by decide) (by decide)⟩

/-! ## Precision rounding (C8) -/

/-- A precision function that rounds 0.5 to 0.4 and throws on everything
else. -/
def precC8 : Str → ℚ → Except Unit ℚ :=
  fun _ q => if q = 1/2 then .ok (2/5) else .error ()

/-- An environment where rounding the buy quantity succeeds and rounding the
sell quantity throws. -/
def envRound : SizingEnv :=
  { markets := [(symBTC,
      { base := "BTC".toList, quote := "USDT".toList, mtype := "spot".toList, minAmount := none })]
    balance := [("USDT".toList, { free := some 1, total := none }),
                ("BTC".toList, { free := some 3, total := none })]
    ticker := fun _ => some { last := some 2, close := none, bid := none }
    amountToPrecision := some precC8 }

/-- The sizing result on `envRound`: the buy amount carries the rounded
value even though the rounding step failed midway. -/
def resRound : SizingResult :=
  { symbol := symBTC, base := "BTC".toList, quote := some "USDT".toList,
    price := 2, buyAmount := 2/5, sellAmount := 3, freeQuote := 1,
    freeBase := 3, rawBuyAmount := 1/2, rawSellAmount := 3 }

/-- Counterexample to C8: in a sizing computation whose precision-rounding
step fails (the amount-precision function throws on the sell call), the
returned buy quantity is the rounded value 0.4, not the raw 0.5. -/
theorem rounding_counterexample :
    precC8 symBTC (3:ℚ) = .error ()
    ∧ envRound.amountToPrecision = some precC8
    ∧ computeAllInAmounts cfgBufferFull envRound symBTC = Except.ok resRound
    ∧ resRound.rawBuyAmount = 1/2 ∧ resRound.buyAmount = 2/5
    ∧ resRound.buyAmount ≠ resRound.rawBuyAmount := by
  refine ⟨by norm_num [precC8], rfl, ?_, rfl, rfl, by norm_num [resRound]⟩
  simp only [computeAllInAmounts, resolveSymbol, alookup, baseQuoteOf, balVal, jsOrQ, truthyQ,
    priceOf, rawBuyAmountCalc, roundAmounts, applyMin, envRound, cfgBufferFull, strSwap,
    resRound, symBTC, precC8]
  norm_num

/-- **C8 (amended).**  A precision-rounding failure never aborts the sizing
computation (the only failure exit is the missing price), and quantities
whose rounding call had not yet succeeded keep their raw values: a throw on
the buy call leaves both quantities raw, while a throw on the sell call
leaves the sell quantity raw but keeps the already-rounded buy quantity. -/
theorem rounding_best_effort :
    (∀ (cfg : Config) (env : SizingEnv) (s : Str),
      (priceOf (env.ticker (resolveSymbol env s))).isSome = true →
      computeAllInAmounts cfg env s ≠ Except.error ())
    ∧ (∀ (env : SizingEnv) (sym : Str) (f : Str → ℚ → Except Unit ℚ) (rb rs : ℚ),
        env.amountToPrecision = some f → (alookup sym env.markets).isSome = true →
        f sym rb = .error () → roundAmounts env sym rb rs = (sym, rb, rs))
    ∧ (∀ (env : SizingEnv) (sym : Str) (f : Str → ℚ → Except Unit ℚ) (rb rs b : ℚ),
        env.amountToPrecision = some f → (alookup sym env.markets).isSome = true →
        f sym rb = .ok b → f sym rs = .error () →
        roundAmounts env sym rb rs = (sym, b, rs)) := by
  refine ⟨?_, ?_, ?_⟩
  · intro cfg env s hp
    simp only [computeAllInAmounts]
    cases hpr : priceOf (env.ticker (resolveSymbol env s)) with
    | none => rw [hpr] at hp; simp at hp
    | some p => simp [hpr]
  · intro env sym f rb rs hf hmem herr
    simp only [roundAmounts, hf, hmem, if_pos, herr]
  · intro env sym f rb rs b hf hmem hok herr
    simp only [roundAmounts, hf, hmem, if_pos, hok, herr]

/-- Witness for C8: on `envRound` the buy call rounds 0.5 to 0.4 and the
sell call throws, so the rounding step yields the rounded buy and the raw
sell. -/
theorem rounding_best_effort_witness :
    envRound.amountToPrecision = some precC8
    ∧ (alookup symBTC envRound.markets).isSome = true
    ∧ precC8 symBTC (1/2 : ℚ) = .ok (2/5)
    ∧ precC8 symBTC (3:ℚ) = .error ()
    ∧ roundAmounts envRound symBTC (1/2) 3 = (symBTC, 2/5, 3) :=
  ⟨rfl, by decide, by norm_num [precC8], by norm_num [precC8],
   rounding_best_effort.2.2 envRound symBTC precC8 (1/2) 3 (2/5) rfl (by decide)
     (by norm_num [precC8]) (by norm_num [precC8])⟩

/-! ## Metadata-absent fallback (C9) -/

/-- An environment with no market metadata at all. -/
def envNoMeta : SizingEnv :=
  { markets := []
    balance := [("USDT".toList, { free := some 100, total := none })]
    ticker := fun _ => some { last := some 4, close := none, bid := none }
    amountToPrecision := none }

/-- **C9.**  For a symbol with no market-metadata entry (neither directly
nor via the separator-removal/replacement reconciliation), the sizer, given
that the price fetch yields a truthy price, still returns a `SizingResult`
whose base and quote come from splitting the literal symbol string on the
slash. -/
theorem sizer_metadata_fallback :
    ∀ (cfg : Config) (env : SizingEnv) (s : Str) (p : ℚ),
      alookup s env.markets = none →
      (env.markets.map Prod.fst).find? (resolvePred s) = none →
      priceOf (env.ticker s) = some p →
      (computeAllInAmounts cfg env s).map (fun r => (r.base, r.quote)) =
        Except.ok ((splitSlash s).headD [], (splitSlash s)[1]?) := by
  intro cfg env s p hlook hfind hp
  have hres : resolveSymbol env s = s := by
    simp [resolveSymbol, hlook, hfind]
  simp only [computeAllInAmounts, hres, hlook, hp, baseQuoteOf]
  simp [Except.map]

/-- Witness for C9: sizing `"ETH/USDT"` against an empty market table
returns a result with base `"ETH"` and quote `"USDT"`. -/
theorem sizer_metadata_fallback_witness :
    alookup "ETH/USDT".toList envNoMeta.markets = none
    ∧ (envNoMeta.markets.map Prod.fst).find? (resolvePred "ETH/USDT".toList) = none
    ∧ priceOf (envNoMeta.ticker "ETH/USDT".toList) = some 4
    ∧ (computeAllInAmounts cfgBufferFull envNoMeta "ETH/USDT".toList).map
        (fun r => (r.base, r.quote)) =
        Except.ok ((splitSlash "ETH/USDT".toList).headD [], (splitSlash "ETH/USDT".toList)[1]?)
    ∧ (splitSlash "ETH/USDT".toList).headD [] = "ETH".toList
    ∧ (splitSlash "ETH/USDT".toList)[1]? = some "USDT".toList :=
  ⟨rfl, rfl, by norm_num [envNoMeta, priceOf, jsOrQ, truthyQ],
   sizer_metadata_fallback cfgBufferFull envNoMeta "ETH/USDT".toList 4 rfl rfl
     (by norm_num [envNoMeta, priceOf, jsOrQ, truthyQ]),
   by decide, by decide⟩

/-! ## Duplicate recording precedes processing (C10) -/

/-- Whether a response is an error (HTTP 400 or 500). -/
def isErrResp : Resp → Bool
  | .badRequest _ => true
  | .serverError _ => true
  | _ => false

theorem handleWebhook_dup (wc : WebhookConfig) (env : WebhookEnv) (req : Request)
    (now : ℕ) (dup : List (Str × ℕ)) (h : hmacStage wc env req = none)
    (hd : (isDuplicate now (env.sha256 req.rawText) dup).1 = true) :
    handleWebhook wc env req now dup =
      (.okDuplicate, (isDuplicate now (env.sha256 req.rawText) dup).2, []) := by
  simp only [handleWebhook, h, hd]
  simp

theorem handleWebhook_pass (wc : WebhookConfig) (env : WebhookEnv) (req : Request)
    (now : ℕ) (dup : List (Str × ℕ)) (h : hmacStage wc env req = none)
    (hd : (isDuplicate now (env.sha256 req.rawText) dup).1 = false) :
    handleWebhook wc env req now dup =
      ((afterDup wc env req).1, (isDuplicate now (env.sha256 req.rawText) dup).2,
       (afterDup wc env req).2) := by
  simp only [handleWebhook, h, hd]
  simp

/-- **C10.**  Once a request passes the HMAC stage, its duplicate key (the
SHA-256 of the raw body) is recorded before parsing, validation and
dispatch: whenever the first call ends in an error response (400/500), the
key is nevertheless in the guard map, and an identical body re-submitted
within the 30-second TTL gets the duplicate response without any order being
attempted. -/
theorem dup_recorded_first :
    ∀ (wc : WebhookConfig) (env : WebhookEnv) (req1 req2 : Request)
      (now1 now2 : ℕ) (dup : List (Str × ℕ)),
      hmacStage wc env req1 = none →
      hmacStage wc env req2 = none →
      env.sha256 req2.rawText = env.sha256 req1.rawText →
      isErrResp (handleWebhook wc env req1 now1 dup).1 = true →
      now2 ≤ now1 + DUP_TTL_MS →
      alookup (env.sha256 req1.rawText) (handleWebhook wc env req1 now1 dup).2.1 = some now1
      ∧ (handleWebhook wc env req2 now2 (handleWebhook wc env req1 now1 dup).2.1).1 =
          Resp.okDuplicate
      ∧ (handleWebhook wc env req2 now2 (handleWebhook wc env req1 now1 dup).2.1).2.2 = [] := by
  intro wc env req1 req2 now1 now2 dup h1 h2 hkey herr hle
  have hnotdup : (isDuplicate now1 (env.sha256 req1.rawText) dup).1 = false := by
    cases hd : (isDuplicate now1 (env.sha256 req1.rawText) dup).1
    · rfl
    · rw [handleWebhook_dup wc env req1 now1 dup h1 hd] at herr
      simp [isErrResp] at herr
  have hmap : (handleWebhook wc env req1 now1 dup).2.1 =
      pruneOld now1 dup ++ [(env.sha256 req1.rawText, now1)] := by
    rw [handleWebhook_pass wc env req1 now1 dup h1 hnotdup]
    exact isDuplicate_snd_of_false now1 _ dup hnotdup
  have hnone : alookup (env.sha256 req1.rawText) (pruneOld now1 dup) = none := by
    have hfst := isDuplicate_fst now1 (env.sha256 req1.rawText) dup
    rw [hnotdup] at hfst
    cases halo : alookup (env.sha256 req1.rawText) (pruneOld now1 dup) with
    | none => rfl
    | some v => rw [halo] at hfst; simp at hfst
  have hsome : alookup (env.sha256 req1.rawText)
      (pruneOld now1 dup ++ [(env.sha256 req1.rawText, now1)]) = some now1 := by
    rw [alookup_append, hnone]
    simp [alookup]
  have hsecond : (isDuplicate now2 (env.sha256 req2.rawText)
      (pruneOld now1 dup ++ [(env.sha256 req1.rawText, now1)])).1 = true := by
    have hw := isDuplicate_true_within dup (env.sha256 req1.rawText) now1 now2 hnotdup hle
    rw [isDuplicate_snd_of_false now1 _ dup hnotdup] at hw
    rw [hkey]
    exact hw
  have hdup2 := handleWebhook_dup wc env req2 now2
    (pruneOld now1 dup ++ [(env.sha256 req1.rawText, now1)]) h2 hsecond
  refine ⟨by rw [hmap]; exact hsome, ?_, ?_⟩
  · rw [hmap, hdup2]
  · rw [hmap, hdup2]

/-- A webhook configuration with no shared secret. -/
def wcOpen : WebhookConfig :=
  { webhookSecret := [], apiKey := "k".toList, apiSecret := "s".toList,
    defaultSymbol := symBTC, minOrderAmount := 0, cfg := cfgBufferFull }

/-- A webhook environment whose body hash is the body itself. -/
def envOpen : WebhookEnv :=
  { sizing := envSimple
    parseJson := fun _ => none
    hmac := fun _ _ => []
    sha256 := fun s => s
    createOrder := fun _ _ _ => .ok () }

/-- A request whose freeform body has an unknown action, so processing fails
with 400 after the duplicate key is recorded. -/
def reqBad : Request :=
  { isJsonObject := false, jsonPayload := { action := none, symbol := none },
    rawText := "zzz".toList, sigHeader := none }

/-- Witness for C10: a request failing with `Unknown action` still records
its body hash, and the identical body 10 seconds later is reported as a
duplicate. -/
theorem dup_recorded_first_witness :
    hmacStage wcOpen envOpen reqBad = none
    ∧ isErrResp (handleWebhook wcOpen envOpen reqBad 0 []).1 = true
    ∧ (10000 : ℕ) ≤ 0 + DUP_TTL_MS
    ∧ (handleWebhook wcOpen envOpen reqBad 10000
        (handleWebhook wcOpen envOpen reqBad 0 []).2.1).1 = Resp.okDuplicate :=
  ⟨rfl, by decide, by decide,
   (dup_recorded_first wcOpen envOpen reqBad reqBad 0 10000 [] rfl rfl rfl
     (by decide) (by decide)).2.1⟩

/-! ## Character and string lemmas for the normalizer -/

theorem alookup_mem {α β : Type} [DecidableEq α] {k : α} {v : β} :
    ∀ {l : List (α × β)}, alookup k l = some v → (k, v) ∈ l := by
  intro l
  induction l with
  | nil => intro h; simp [alookup] at h
  | cons e rest ih =>
    obtain ⟨a, b⟩ := e
    intro h
    by_cases hk : a = k
    · subst hk
      simp [alookup] at h
      subst h
      exact List.mem_cons_self _ _
    · simp only [alookup, if_neg hk] at h
      exact List.mem_cons_of_mem _ (ih h)

/-- Facts about the case table needed below, checked by evaluation. -/
theorem upPairs_facts : ∀ p ∈ upPairs,
    p.2 ≠ '/' ∧ p.2 ≠ '-' ∧ p.2 ≠ '_' ∧ jsIsWs p.2 = false ∧ jsIsWs p.1 = false ∧
    alookup p.2 upPairs = (none : Option Char) := by decide

theorem upChar_sep {q : Char} (hq : q = '/' ∨ q = '-' ∨ q = '_') (c : Char) :
    upChar c = q ↔ c = q := by
  unfold upChar
  cases h : alookup c upPairs with
  | none => exact Iff.rfl
  | some u =>
    have hf := upPairs_facts _ (alookup_mem h)
    constructor
    · intro hu
      exfalso
      rcases hq with rfl | rfl | rfl
      · exact hf.1 hu
      · exact hf.2.1 hu
      · exact hf.2.2.1 hu
    · intro hc
      subst hc
      exfalso
      have : alookup c upPairs = none := by
        rcases hq with rfl | rfl | rfl <;> decide
      rw [this] at h
      exact Option.noConfusion h

theorem jsIsWs_upChar (c : Char) : jsIsWs (upChar c) = jsIsWs c := by
  unfold upChar
  cases h : alookup c upPairs with
  | none => rfl
  | some u =>
    have hf := upPairs_facts _ (alookup_mem h)
    rw [hf.2.2.2.1, hf.2.2.2.2.1]

theorem upChar_upChar (c : Char) : upChar (upChar c) = upChar c := by
  unfold upChar
  cases h : alookup c upPairs with
  | none => rw [h]
  | some u =>
    have hf := upPairs_facts _ (alookup_mem h)
    rw [hf.2.2.2.2.2]

theorem jsToUpper_jsToUpper (s : Str) : jsToUpper (jsToUpper s) = jsToUpper s := by
  simp only [jsToUpper, List.map_map]
  exact List.map_congr_left (fun c _ => upChar_upChar c)

theorem count_jsToUpper {q : Char} (hq : q = '/' ∨ q = '-' ∨ q = '_') (s : Str) :
    (jsToUpper s).count q = s.count q := by
  induction s with
  | nil => rfl
  | cons a as ih =>
    simp only [jsToUpper, List.map_cons, List.count_cons] at *
    rw [ih]
    congr 1
    by_cases hc : a = q
    · subst hc
      have h2 : upChar a = a := (upChar_sep hq a).mpr rfl
      simp [h2]
    · have h2 : upChar a ≠ q := fun hu => hc ((upChar_sep hq a).mp hu)
      simp [hc, h2]

/-! Lemmas about `jsReplaceFirst` with a one-character replacement. -/

theorem length_jsRF (p c : Char) (s : Str) :
    (jsReplaceFirst p [c] s).length = s.length := by
  induction s with
  | nil => rfl
  | cons a as ih =>
    by_cases h : a = p <;> simp [jsReplaceFirst, h, ih]

theorem jsRF_of_not_mem (p : Char) (rep : Str) {s : Str} (h : p ∉ s) :
    jsReplaceFirst p rep s = s := by
  induction s with
  | nil => rfl
  | cons a as ih =>
    have ha : a ≠ p := fun hc => h (hc ▸ List.mem_cons_self a as)
    have has : p ∉ as := fun hc => h (List.mem_cons_of_mem a hc)
    simp [jsReplaceFirst, ha, ih has]

theorem count_jsRF_pat {p c : Char} (hpc : c ≠ p) {s : Str} (h : p ∈ s) :
    (jsReplaceFirst p [c] s).count p + 1 = s.count p := by
  induction s with
  | nil => simp at h
  | cons a as ih =>
    by_cases ha : a = p
    · subst ha
      simp [jsReplaceFirst, List.count_cons, hpc]
    · have has : p ∈ as := by
        rcases List.mem_cons.mp h with hc | hc
        · exact absurd hc.symm ha
        · exact hc
      simp only [jsReplaceFirst, if_neg ha, List.count_cons]
      rw [← ih has]
      ring

theorem count_jsRF_rep {p c : Char} (hpc : c ≠ p) {s : Str} (h : p ∈ s) :
    (jsReplaceFirst p [c] s).count c = s.count c + 1 := by
  induction s with
  | nil => simp at h
  | cons a as ih =>
    by_cases ha : a = p
    · subst ha
      have h1 : ¬ (a = c) := fun hc => hpc hc.symm
      simp [jsReplaceFirst, List.count_cons, h1]
    · have has : p ∈ as := by
        rcases List.mem_cons.mp h with hc | hc
        · exact absurd hc.symm ha
        · exact hc
      simp only [jsReplaceFirst, if_neg ha, List.count_cons]
      rw [ih has]
      ring

theorem count_jsRF_other {p c q : Char} (hqp : q ≠ p) (hqc : q ≠ c) (s : Str) :
    (jsReplaceFirst p [c] s).count q = s.count q := by
  induction s with
  | nil => rfl
  | cons a as ih =>
    by_cases ha : a = p
    · subst ha
      have h1 : ¬ (c = q) := fun hc => hqc hc.symm
      have h2 : ¬ (a = q) := fun hc => hqp hc.symm
      simp [jsReplaceFirst, List.count_cons, h1, h2]
    · simp [jsReplaceFirst, ha, List.count_cons, ih]

/-! Lemmas about the slash-insertion step and string ends. -/

theorem count_insert_slash_self (t : Str) :
    (t.take 3 ++ '/' :: t.drop 3).count '/' = t.count '/' + 1 := by
  conv_rhs => rw [← List.take_append_drop 3 t]
  rw [List.count_append, List.count_append, List.count_cons]
  simp
  ring

theorem count_insert_slash_other {q : Char} (hq : q ≠ '/') (t : Str) :
    (t.take 3 ++ '/' :: t.drop 3).count q = t.count q := by
  conv_rhs => rw [← List.take_append_drop 3 t]
  rw [List.count_append, List.count_append, List.count_cons]
  have : ('/' == q) = false := beq_eq_false_iff_ne.mpr (Ne.symm hq)
  simp [this]

theorem length_insert_slash (t : Str) :
    (t.take 3 ++ '/' :: t.drop 3).length = t.length + 1 := by
  rw [List.length_append, List.length_cons]
  conv_rhs => rw [← List.take_append_drop 3 t, List.length_append]
  ring

theorem head?_insert_slash {t : Str} (h : t ≠ []) :
    (t.take 3 ++ '/' :: t.drop 3).head? = t.head? := by
  cases t with
  | nil => exact absurd rfl h
  | cons a as => rfl

theorem getLast?_insert_slash {t : Str} (h : t.drop 3 ≠ []) :
    (t.take 3 ++ '/' :: t.drop 3).getLast? = t.getLast? := by
  rw [List.getLast?_append_of_ne_nil _ (by simp : ('/' :: t.drop 3) ≠ [])]
  cases hd : t.drop 3 with
  | nil => exact absurd hd h
  | cons b bs =>
    rw [List.getLast?_cons_cons]
    conv_rhs => rw [← List.take_append_drop 3 t]
    rw [List.getLast?_append_of_ne_nil _ (by rw [hd]; simp)]
    rw [hd]

theorem head?_jsRF (p : Char) (s : Str) :
    (jsReplaceFirst p ['/'] s).head? = some '/' ∨
    (jsReplaceFirst p ['/'] s).head? = s.head? := by
  cases s with
  | nil => right; rfl
  | cons a as =>
    by_cases h : a = p
    · left; simp [jsReplaceFirst, h]
    · right; simp [jsReplaceFirst, h]

theorem getLast?_jsRF (p : Char) (s : Str) :
    (jsReplaceFirst p ['/'] s).getLast? = some '/' ∨
    (jsReplaceFirst p ['/'] s).getLast? = s.getLast? := by
  induction s with
  | nil => right; rfl
  | cons a as ih =>
    by_cases h : a = p
    · rw [show jsReplaceFirst p ['/'] (a :: as) = '/' :: as from by simp [jsReplaceFirst, h]]
      cases as with
      | nil => left; rfl
      | cons b bs => right; rw [List.getLast?_cons_cons, List.getLast?_cons_cons]
    · rw [show jsReplaceFirst p ['/'] (a :: as) = a :: jsReplaceFirst p ['/'] as from by
        simp [jsReplaceFirst, h]]
      cases as with
      | nil => right; rfl
      | cons b bs =>
        cases hr : jsReplaceFirst p ['/'] (b :: bs) with
        | nil =>
          exfalso
          have hl := length_jsRF p '/' (b :: bs)
          rw [hr] at hl
          simp at hl
        | cons c cs =>
          rw [hr] at ih
          rw [List.getLast?_cons_cons, List.getLast?_cons_cons]
          exact ih

/-! Lemmas about `dropWhile` and `jsTrim`. -/

theorem head?_dropWhile_not (p : Char → Bool) (l : Str) :
    ∀ c, (l.dropWhile p).head? = some c → p c = false := by
  induction l with
  | nil => intro c h; simp [List.dropWhile] at h
  | cons a as ih =>
    intro c h
    rw [List.dropWhile_cons] at h
    by_cases hp : p a
    · rw [if_pos hp] at h
      exact ih c h
    · rw [if_neg hp] at h
      simp only [List.head?_cons, Option.some.injEq] at h
      subst h
      exact Bool.eq_false_iff.mpr hp

theorem getLast?_dropWhile (p : Char → Bool) (l : Str) (h : l.dropWhile p ≠ []) :
    (l.dropWhile p).getLast? = l.getLast? := by
  obtain ⟨t, ht⟩ := List.dropWhile_suffix (l := l) p
  conv_rhs => rw [← ht]
  rw [List.getLast?_append_of_ne_nil _ h]

theorem jsTrim_head? (s : Str) : ∀ c, (jsTrim s).head? = some c → jsIsWs c = false := by
  intro c h
  unfold jsTrim at h
  rw [List.head?_reverse] at h
  by_cases hyne : (s.dropWhile jsIsWs).reverse.dropWhile jsIsWs = []
  · rw [hyne] at h; simp at h
  · rw [getLast?_dropWhile _ _ hyne, List.getLast?_reverse] at h
    exact head?_dropWhile_not _ _ c h

theorem jsTrim_getLast? (s : Str) : ∀ c, (jsTrim s).getLast? = some c → jsIsWs c = false := by
  intro c h
  unfold jsTrim at h
  rw [List.getLast?_reverse] at h
  exact head?_dropWhile_not _ _ c h

theorem jsTrim_eq_self {v : Str} (h1 : ∀ c, v.head? = some c → jsIsWs c = false)
    (h2 : ∀ c, v.getLast? = some c → jsIsWs c = false) : jsTrim v = v := by
  unfold jsTrim
  have hd : v.dropWhile jsIsWs = v := by
    cases hv : v with
    | nil => rfl
    | cons a as =>
      rw [List.dropWhile_cons]
      rw [hv] at h1
      simp [h1 a rfl]
  rw [hd]
  have hr : v.reverse.dropWhile jsIsWs = v.reverse := by
    cases hv : v.reverse with
    | nil => rfl
    | cons a as =>
      rw [List.dropWhile_cons]
      have ha : v.getLast? = some a := by
        rw [← List.head?_reverse, hv]
        rfl
      simp [h2 a ha]
  rw [hr, List.reverse_reverse]

/-! Decomposition of `normCore` into named stages (definitionally equal to
the source-shaped `normCore`). -/

/-- The slash-insertion step of `normalizeSymbol` in isolation. -/
def insMaybe (t : Str) : Str :=
  if '/' ∉ t ∧ 6 ≤ t.length then t.take 3 ++ '/' :: t.drop 3 else t

/-- The pipeline of `normalizeSymbol` after trimming. -/
def normTail (t : Str) : Str :=
  jsToUpper (insMaybe (jsReplaceFirst '_' ['/'] (jsReplaceFirst '-' ['/'] t)))

theorem normCore_eq (s : Str) : normCore s = normTail (jsTrim s) := rfl

theorem mem_of_count_ne_zero {a : Char} {l : Str} (h : l.count a ≠ 0) : a ∈ l := by
  by_contra hc
  exact h (List.count_eq_zero.mpr hc)

theorem ne_nil_of_length_pos {l : Str} (h : 0 < l.length) : l ≠ [] := by
  intro hc
  rw [hc] at h
  simp at h

theorem jsRF_end_props (p : Char) (t : Str)
    (hth : ∀ c, t.head? = some c → jsIsWs c = false)
    (htl : ∀ c, t.getLast? = some c → jsIsWs c = false) :
    (∀ c, (jsReplaceFirst p ['/'] t).head? = some c → jsIsWs c = false)
    ∧ (∀ c, (jsReplaceFirst p ['/'] t).getLast? = some c → jsIsWs c = false) := by
  constructor
  · intro c h
    rcases head?_jsRF p t with hc | hc
    · rw [hc] at h
      injection h with h
      subst h
      decide
    · rw [hc] at h
      exact hth c h
  · intro c h
    rcases getLast?_jsRF p t with hc | hc
    · rw [hc] at h
      injection h with h
      subst h
      decide
    · rw [hc] at h
      exact htl c h

/-- End-to-end properties of the trimmed-input pipeline used for the
idempotence proof: with at most one dash and one underscore in the input,
the output has no dash or underscore left, contains a slash or is shorter
than six characters, has non-whitespace ends, and is fixed by
uppercasing. -/
theorem normTail_props (t : Str) (htne : t ≠ [])
    (hth : ∀ c, t.head? = some c → jsIsWs c = false)
    (htl : ∀ c, t.getLast? = some c → jsIsWs c = false)
    (hcd : t.count '-' ≤ 1) (hcu : t.count '_' ≤ 1) :
    normTail t ≠ []
    ∧ (normTail t).count '-' = 0
    ∧ (normTail t).count '_' = 0
    ∧ ('/' ∈ normTail t ∨ (normTail t).length < 6)
    ∧ (∀ c, (normTail t).head? = some c → jsIsWs c = false)
    ∧ (∀ c, (normTail t).getLast? = some c → jsIsWs c = false)
    ∧ jsToUpper (normTail t) = normTail t := by
  have htpos : 0 < t.length := by
    cases t with
    | nil => exact absurd rfl htne
    | cons a as => simp
  -- stage 1: replace the first dash
  have hlen1 : (jsReplaceFirst '-' ['/'] t).length = t.length := length_jsRF '-' '/' t
  have h1ne : jsReplaceFirst '-' ['/'] t ≠ [] := ne_nil_of_length_pos (hlen1 ▸ htpos)
  have hd1 : (jsReplaceFirst '-' ['/'] t).count '-' = 0 := by
    by_cases hm : '-' ∈ t
    · have := count_jsRF_pat (p := '-') (c := '/') (by decide) hm
      omega
    · rw [jsRF_of_not_mem _ _ hm]
      exact List.count_eq_zero.mpr hm
  have hu1 : (jsReplaceFirst '-' ['/'] t).count '_' ≤ 1 := by
    rw [count_jsRF_other (by decide) (by decide)]
    exact hcu
  have hends1 := jsRF_end_props '-' t hth htl
  -- stage 2: replace the first underscore
  have hlen2 : (jsReplaceFirst '_' ['/'] (jsReplaceFirst '-' ['/'] t)).length = t.length := by
    rw [length_jsRF, hlen1]
  have h2ne : jsReplaceFirst '_' ['/'] (jsReplaceFirst '-' ['/'] t) ≠ [] :=
    ne_nil_of_length_pos (hlen2 ▸ htpos)
  have hd2 : (jsReplaceFirst '_' ['/'] (jsReplaceFirst '-' ['/'] t)).count '-' = 0 := by
    rw [count_jsRF_other (by decide) (by decide)]
    exact hd1
  have hu2 : (jsReplaceFirst '_' ['/'] (jsReplaceFirst '-' ['/'] t)).count '_' = 0 := by
    by_cases hm : '_' ∈ jsReplaceFirst '-' ['/'] t
    · have := count_jsRF_pat (p := '_') (c := '/') (by decide) hm
      omega
    · rw [jsRF_of_not_mem _ _ hm]
      exact List.count_eq_zero.mpr hm
  have hends2 := jsRF_end_props '_' (jsReplaceFirst '-' ['/'] t) hends1.1 hends1.2
  -- stage 3: optional slash insertion
  rw [normTail]
  set X := jsReplaceFirst '_' ['/'] (jsReplaceFirst '-' ['/'] t) with hX
  have hY : (insMaybe X ≠ []
      ∧ (insMaybe X).count '-' = 0
      ∧ (insMaybe X).count '_' = 0
      ∧ ('/' ∈ insMaybe X ∨ (insMaybe X).length < 6)
      ∧ (∀ c, (insMaybe X).head? = some c → jsIsWs c = false)
      ∧ (∀ c, (insMaybe X).getLast? = some c → jsIsWs c = false)) := by
    by_cases hins : '/' ∉ X ∧ 6 ≤ X.length
    · rw [insMaybe, if_pos hins]
      have hdrop : X.drop 3 ≠ [] := by
        apply ne_nil_of_length_pos
        rw [List.length_drop]
        omega
      refine ⟨?_, ?_, ?_, ?_, ?_, ?_⟩
      · exact ne_nil_of_length_pos (by rw [length_insert_slash]; omega)
      · rw [count_insert_slash_other (by decide)]
        exact hd2
      · rw [count_insert_slash_other (by decide)]
        exact hu2
      · left
        apply mem_of_count_ne_zero
        rw [count_insert_slash_self]
        omega
      · intro c h
        rw [head?_insert_slash h2ne] at h
        exact hends2.1 c h
      · intro c h
        rw [getLast?_insert_slash hdrop] at h
        exact hends2.2 c h
    · rw [insMaybe, if_neg hins]
      refine ⟨h2ne, hd2, hu2, ?_, hends2.1, hends2.2⟩
      rcases Decidable.not_and_iff_or_not.mp hins with hc | hc
      · left
        exact Decidable.not_not.mp hc
      · right
        omega
  obtain ⟨hYne, hYd, hYu, hYsl, hYh, hYl⟩ := hY
  -- stage 4: uppercase
  have hulen : (jsToUpper (insMaybe X)).length = (insMaybe X).length := by
    rw [jsToUpper, List.length_map]
  refine ⟨?_, ?_, ?_, ?_, ?_, ?_, jsToUpper_jsToUpper _⟩
  · apply ne_nil_of_length_pos
    rw [hulen]
    cases hc : insMaybe X with
    | nil => exact absurd hc hYne
    | cons a as => simp [hc]
  · rw [count_jsToUpper (by decide)]
    exact hYd
  · rw [count_jsToUpper (by decide)]
    exact hYu
  · rcases hYsl with hm | hlt
    · left
      apply mem_of_count_ne_zero
      rw [count_jsToUpper (by decide)]
      intro hc
      rw [List.count_eq_zero] at hc
      exact hc hm
    · right
      rw [hulen]
      exact hlt
  · intro c h
    rw [jsToUpper, List.head?_map] at h
    cases hc : (insMaybe X).head? with
    | none => rw [hc] at h; simp at h
    | some c' =>
      rw [hc] at h
      injection h with h
      subst h
      rw [jsIsWs_upChar]
      exact hYh c' hc
  · intro c h
    rw [jsToUpper, List.getLast?_map] at h
    cases hc : (insMaybe X).getLast? with
    | none => rw [hc] at h; simp at h
    | some c' =>
      rw [hc] at h
      injection h with h
      subst h
      rw [jsIsWs_upChar]
      exact hYl c' hc

theorem normCore_idem_aux (s : Str) (ht : jsTrim s ≠ [])
    (hcd : (jsTrim s).count '-' ≤ 1) (hcu : (jsTrim s).count '_' ≤ 1) :
    normCore s ≠ [] ∧ normCore (normCore s) = normCore s := by
  obtain ⟨hne, hd0, hu0, hsl, hh, hl, hupfix⟩ :=
    normTail_props (jsTrim s) ht (jsTrim_head? s) (jsTrim_getLast? s) hcd hcu
  rw [normCore_eq s]
  refine ⟨hne, ?_⟩
  rw [normCore_eq, jsTrim_eq_self hh hl]
  rw [normTail]
  rw [jsRF_of_not_mem _ _ (List.count_eq_zero.mp hd0)]
  rw [jsRF_of_not_mem _ _ (List.count_eq_zero.mp hu0)]
  rw [insMaybe, if_neg ?hcond]
  case hcond =>
    intro hcond
    rcases hsl with hm | hlt
    · exact hcond.1 hm
    · omega
  exact hupfix

/-- Counterexample to C3: `String.replace` only replaces the first
occurrence, so `"a-b-c"` normalizes to `"A/B-C"` while a second pass turns
the surviving dash into a second slash. -/
theorem normalize_idem_counterexample :
    (normalizeSymbol "a-b-c".toList).bind normalizeSymbol ≠
      normalizeSymbol "a-b-c".toList := by decide

/-- **C3 (amended).**  Symbol normalization is idempotent on every input
whose trimmed form is nonempty and contains at most one dash and at most one
underscore: `normalize(normalize(s)) = normalize(s)` for those inputs. -/
theorem normalize_idem :
    ∀ s : Str, jsTrim s ≠ [] → (jsTrim s).count '-' ≤ 1 → (jsTrim s).count '_' ≤ 1 →
      (normalizeSymbol s).bind normalizeSymbol = normalizeSymbol s := by
  intro s ht hcd hcu
  obtain ⟨hne, hfix⟩ := normCore_idem_aux s ht hcd hcu
  have hs : s ≠ [] := by
    intro hc
    apply ht
    rw [hc]
    rfl
  rw [normalizeSymbol, if_neg hs]
  show normalizeSymbol (normCore s) = some (normCore s)
  rw [normalizeSymbol, if_neg hne, hfix]

/-- Witness for C3: idempotence at `"btc-usdt"`. -/
theorem normalize_idem_witness :
    jsTrim "btc-usdt".toList ≠ []
    ∧ (jsTrim "btc-usdt".toList).count '-' ≤ 1
    ∧ (jsTrim "btc-usdt".toList).count '_' ≤ 1
    ∧ (normalizeSymbol "btc-usdt".toList).bind normalizeSymbol =
        normalizeSymbol "btc-usdt".toList :=
  ⟨by decide, by decide, by decide,
   normalize_idem "btc-usdt".toList (by decide) (by decide) (by decide)⟩

/-! ## The canonical-symbol invariant (C4) -/

/-- Counterexample to C4: the short separator-less input `"ab"` normalizes
to `"AB"`, which contains no separator at all, so the output does not always
contain exactly one slash. -/
theorem normalize_invariant_counterexample :
    normalizeSymbol "ab".toList = some "AB".toList
    ∧ ("AB".toList).count '/' = 0 := by decide

theorem insMaybe_counts {t2 : Str}
    (h : (t2.count '/' = 1 ∧ t2.count '-' = 0 ∧ t2.count '_' = 0)
       ∨ (t2.count '/' = 0 ∧ t2.count '-' = 0 ∧ t2.count '_' = 0 ∧ 6 ≤ t2.length)) :
    (insMaybe t2).count '/' = 1 ∧ (insMaybe t2).count '-' = 0
    ∧ (insMaybe t2).count '_' = 0 := by
  rcases h with ⟨h1, h2, h3⟩ | ⟨h1, h2, h3, h4⟩
  · have hmem : '/' ∈ t2 := mem_of_count_ne_zero (by omega)
    rw [insMaybe, if_neg (fun hcond => hcond.1 hmem)]
    exact ⟨h1, h2, h3⟩
  · have hnm : '/' ∉ t2 := List.count_eq_zero.mp h1
    rw [insMaybe, if_pos ⟨hnm, h4⟩]
    refine ⟨?_, ?_, ?_⟩
    · rw [count_insert_slash_self, h1]
    · rw [count_insert_slash_other (by decide)]
      exact h2
    · rw [count_insert_slash_other (by decide)]
      exact h3

/-- **C4 (amended).**  For every input whose trimmed form contains exactly
one separator character (slash, dash or underscore), or contains none and is
at least six characters long, the normalized output is uppercase (fixed by
uppercasing) and contains exactly one slash and no dash or underscore: the
single dash or underscore is replaced by the canonical slash, and in the
separator-less case a slash is inserted after the first three characters. -/
theorem normalize_one_sep :
    ∀ s : Str,
      ((jsTrim s).count '/' + (jsTrim s).count '-' + (jsTrim s).count '_' = 1
        ∨ ((jsTrim s).count '/' = 0 ∧ (jsTrim s).count '-' = 0
            ∧ (jsTrim s).count '_' = 0 ∧ 6 ≤ (jsTrim s).length)) →
      ∀ u, normalizeSymbol s = some u →
        u.count '/' = 1 ∧ u.count '-' = 0 ∧ u.count '_' = 0 ∧ jsToUpper u = u := by
  intro s hsep u hu
  have hs : s ≠ [] := by
    intro hc
    rw [hc] at hu
    simp [normalizeSymbol] at hu
  rw [normalizeSymbol, if_neg hs] at hu
  injection hu with hu
  subst hu
  rw [normCore_eq]
  -- counts after the two replacements
  have hX : ((jsReplaceFirst '_' ['/'] (jsReplaceFirst '-' ['/'] (jsTrim s))).count '/' = 1
        ∧ (jsReplaceFirst '_' ['/'] (jsReplaceFirst '-' ['/'] (jsTrim s))).count '-' = 0
        ∧ (jsReplaceFirst '_' ['/'] (jsReplaceFirst '-' ['/'] (jsTrim s))).count '_' = 0)
      ∨ ((jsReplaceFirst '_' ['/'] (jsReplaceFirst '-' ['/'] (jsTrim s))).count '/' = 0
        ∧ (jsReplaceFirst '_' ['/'] (jsReplaceFirst '-' ['/'] (jsTrim s))).count '-' = 0
        ∧ (jsReplaceFirst '_' ['/'] (jsReplaceFirst '-' ['/'] (jsTrim s))).count '_' = 0
        ∧ 6 ≤ (jsReplaceFirst '_' ['/'] (jsReplaceFirst '-' ['/'] (jsTrim s))).length) := by
    rcases hsep with hsum | ⟨hz1, hz2, hz3, hlen⟩
    · have hcases : ((jsTrim s).count '/' = 1 ∧ (jsTrim s).count '-' = 0 ∧ (jsTrim s).count '_' = 0)
          ∨ ((jsTrim s).count '/' = 0 ∧ (jsTrim s).count '-' = 1 ∧ (jsTrim s).count '_' = 0)
          ∨ ((jsTrim s).count '/' = 0 ∧ (jsTrim s).count '-' = 0 ∧ (jsTrim s).count '_' = 1) := by
        omega
      left
      rcases hcases with ⟨c1, c2, c3⟩ | ⟨c1, c2, c3⟩ | ⟨c1, c2, c3⟩
      · rw [jsRF_of_not_mem _ _ (List.count_eq_zero.mp c2),
          jsRF_of_not_mem _ _ (List.count_eq_zero.mp c3)]
        exact ⟨c1, c2, c3⟩
      · have hmem : '-' ∈ jsTrim s := mem_of_count_ne_zero (by omega)
        have hr1 : (jsReplaceFirst '-' ['/'] (jsTrim s)).count '/' = 1 := by
          rw [count_jsRF_rep (by decide) hmem, c1]
        have hr2 : (jsReplaceFirst '-' ['/'] (jsTrim s)).count '-' = 0 := by
          have := count_jsRF_pat (p := '-') (c := '/') (by decide) hmem
          omega
        have hr3 : (jsReplaceFirst '-' ['/'] (jsTrim s)).count '_' = 0 := by
          rw [count_jsRF_other (by decide) (by decide)]
          exact c3
        rw [jsRF_of_not_mem _ _ (List.count_eq_zero.mp hr3)]
        exact ⟨hr1, hr2, hr3⟩
      · have hnm : '-' ∉ jsTrim s := List.count_eq_zero.mp c2
        rw [jsRF_of_not_mem _ _ hnm]
        have hmem : '_' ∈ jsTrim s := mem_of_count_ne_zero (by omega)
        refine ⟨?_, ?_, ?_⟩
        · rw [count_jsRF_rep (by decide) hmem, c1]
        · rw [count_jsRF_other (by decide) (by decide)]
          exact c2
        · have := count_jsRF_pat (p := '_') (c := '/') (by decide) hmem
          omega
    · right
      rw [jsRF_of_not_mem _ _ (List.count_eq_zero.mp hz2),
        jsRF_of_not_mem _ _ (List.count_eq_zero.mp hz3)]
      exact ⟨hz1, hz2, hz3, hlen⟩
  obtain ⟨hi1, hi2, hi3⟩ := insMaybe_counts hX
  rw [normTail]
  refine ⟨?_, ?_, ?_, jsToUpper_jsToUpper _⟩
  · rw [count_jsToUpper (by decide)]
    exact hi1
  · rw [count_jsToUpper (by decide)]
    exact hi2
  · rw [count_jsToUpper (by decide)]
    exact hi3

/-- Witness for C4: the separator-less six-character input `"btcusdt"` gets
exactly one slash inserted and is uppercased. -/
theorem normalize_one_sep_witness :
    ((jsTrim "btcusdt".toList).count '/' + (jsTrim "btcusdt".toList).count '-'
        + (jsTrim "btcusdt".toList).count '_' = 1
      ∨ ((jsTrim "btcusdt".toList).count '/' = 0 ∧ (jsTrim "btcusdt".toList).count '-' = 0
          ∧ (jsTrim "btcusdt".toList).count '_' = 0 ∧ 6 ≤ (jsTrim "btcusdt".toList).length))
    ∧ normalizeSymbol "btcusdt".toList = some "BTC/USDT".toList
    ∧ ("BTC/USDT".toList.count '/' = 1 ∧ "BTC/USDT".toList.count '-' = 0
        ∧ "BTC/USDT".toList.count '_' = 0 ∧ jsToUpper "BTC/USDT".toList = "BTC/USDT".toList) :=
  ⟨by decide, by decide,
   normalize_one_sep "btcusdt".toList (by decide) "BTC/USDT".toList (by decide)⟩

end Bitget
